/-
Verification of the `sym` repository: a decoder for PS1 debug-symbol tables
(`part_001`, Go package `sym`) and a C declaration synthesizer (`class.go`,
Go package `c`).

The byte stream is modelled as a `List Nat` of byte values.  Readers are
`List Nat → Except Err α × List Nat`: the second component is the state of
the stream after the call (also on failure, mirroring the side effects of a
Go `io.Reader`).  Multi-byte integers are little-endian, assembled in `Nat`.
-/
import Mathlib

namespace SymSpec

/-- Decode errors.  `eof` models `io.EOF` (no byte available at the start of
a read), `unexpectedEof` models `io.ErrUnexpectedEOF` (stream exhausted in
the middle of a multi-byte read), `unknownKind` models the
`support for symbol kind 0x%02X not yet implemented` error of
`parseSymbolBody`. -/
inductive Err where
  | eof
  | unexpectedEof
  | unknownKind (kind : Nat)
deriving DecidableEq, Repr

/-- Result of a read: outcome plus the remaining stream. -/
abbrev PResult (α : Type) := Except Err α × List Nat

/-- Sequencing with early return on error, as in the Go sources where every
read is followed by `if err != nil { return ... }`. -/
def pbind (p : PResult α) (f : α → List Nat → PResult β) : PResult β :=
  match p with
  | (.error e, rest) => (.error e, rest)
  | (.ok a, rest) => f a rest

/-- Reading one byte (`binary.Read` of a `uint8`): `io.EOF` when no byte is
available. -/
def readU8 : List Nat → PResult Nat
  | [] => (.error .eof, [])
  | b :: bs => (.ok b, bs)

/-- Reading a little-endian `uint16` (`binary.Read`): `io.EOF` on an empty
stream, `io.ErrUnexpectedEOF` on a partial read. -/
def readU16 : List Nat → PResult Nat
  | [] => (.error .eof, [])
  | [_] => (.error .unexpectedEof, [])
  | lo :: hi :: bs => (.ok (lo + 256 * hi), bs)

/-- Reading a little-endian `uint32` (`binary.Read`). -/
def readU32 : List Nat → PResult Nat
  | [] => (.error .eof, [])
  | [_] => (.error .unexpectedEof, [])
  | [_, _] => (.error .unexpectedEof, [])
  | [_, _, _] => (.error .unexpectedEof, [])
  | b0 :: b1 :: b2 :: b3 :: bs =>
      (.ok (b0 + 256 * b1 + 65536 * b2 + 16777216 * b3), bs)

/-- Reading `n` raw bytes (`io.ReadFull`): `io.EOF` when nothing is
available, `io.ErrUnexpectedEOF` on a partial read. -/
def readBytes (n : Nat) (bs : List Nat) : PResult (List Nat) :=
  if n = 0 then (.ok [], bs)
  else if bs.length < n then
    (if bs.isEmpty then (.error .eof, []) else (.error .unexpectedEof, []))
  else (.ok (bs.take n), bs.drop n)

/-- A PS1 symbol header (`SymbolHeader`): 4-byte value/address plus a 1-byte
kind tag.  `binary.Size` of this struct is 5. -/
structure SymbolHeader where
  Value : Nat
  Kind : Nat
deriving DecidableEq, Repr

/-- A `Name1` symbol body (kind 0x01): length-prefixed name. -/
structure Name1 where
  NameLen : Nat
  Name : List Nat
deriving DecidableEq, Repr

/-- A `Name2` symbol body (kind 0x02): length-prefixed name. -/
structure Name2 where
  NameLen : Nat
  Name : List Nat
deriving DecidableEq, Repr

/-- A `Def` symbol body (kind 0x94).  The Go field `Type` (a reserved word in
Lean) is rendered `Ty`. -/
structure Def where
  Class : Nat
  Ty : Nat
  Size : Nat
  NameLen : Nat
  Name : List Nat
deriving DecidableEq, Repr

/-- A `Def2` symbol body (kind 0x96).  `Dims` is a list of `Dimensions`
groups, each a list of `uint16` values as decoded by `Dimensions.Unpack`
(the terminating 0 included, exactly as the Go code appends it). -/
structure Def2 where
  Class : Nat
  Ty : Nat
  Size : Nat
  Dims : List (List Nat)
  TagLen : Nat
  Tag : List Nat
  NameLen : Nat
  Name : List Nat
deriving DecidableEq, Repr

/-- An `Overlay` symbol body (kind 0x98). -/
structure Overlay where
  Length : Nat
  ID : Nat
deriving DecidableEq, Repr

/-- `SymbolBody` interface: sum of the five body variants. -/
inductive SymbolBody where
  | name1 (body : Name1)
  | name2 (body : Name2)
  | defSym (body : Def)
  | def2Sym (body : Def2)
  | overlay (body : Overlay)
deriving DecidableEq, Repr

/-- `Name1.BodySize`: `1 + int(body.NameLen)`. -/
def Name1.BodySize (body : Name1) : Nat := 1 + body.NameLen

/-- `Name2.BodySize`: `1 + int(body.NameLen)`. -/
def Name2.BodySize (body : Name2) : Nat := 1 + body.NameLen

/-- `Def.BodySize`: `2 + 2 + 4 + 1 + int(body.NameLen)`. -/
def Def.BodySize (body : Def) : Nat := 2 + 2 + 4 + 1 + body.NameLen

/-- `Def2.BodySize`: `2 + 2 + 4 + dimsLen + 1 + int(body.TagLen) + 1 +
int(body.NameLen)` where `dimsLen` accumulates `2 * len(dims)` over the
groups. -/
def Def2.BodySize (body : Def2) : Nat :=
  2 + 2 + 4 + body.Dims.foldl (fun acc dims => acc + 2 * dims.length) 0
    + 1 + body.TagLen + 1 + body.NameLen

/-- `Overlay.BodySize`: `4 + 4`. -/
def Overlay.BodySize (body : Overlay) : Nat := 4 + 4

/-- Dynamic dispatch of the `BodySize` method on the `SymbolBody`
interface. -/
def SymbolBody.BodySize : SymbolBody → Nat
  | .name1 body => body.BodySize
  | .name2 body => body.BodySize
  | .defSym body => body.BodySize
  | .def2Sym body => body.BodySize
  | .overlay body => body.BodySize

/-- A PS1 `Symbol`: header plus body.  The Go `Body` field is a nil-able
interface value, modelled as an `Option`; `parseSymbol` leaves it nil when
body parsing fails. -/
structure Symbol where
  Hdr : SymbolHeader
  Body : Option SymbolBody
deriving DecidableEq, Repr

/-- `Symbol.Size`: `binary.Size(*sym.Hdr) + sym.Body.BodySize()`.  The
header size is the constant 5 (uint32 + uint8).  The Go code panics when
`Body` is nil; the `none` branch (size of the header alone) is never used on
fully parsed symbols, the only ones `Size` is called on. -/
def Symbol.Size (sym : Symbol) : Nat :=
  5 + match sym.Body with
      | some body => body.BodySize
      | none => 0

/-- Modelled from the spec: kind tag of the local-name record
(`name-local=0x01`); the constant declaration is not among the provided
sources. -/
def KindName1 : Nat := 0x01

/-- Modelled from the spec: kind tag of the global-name record
(`name-global=0x02`). -/
def KindName2 : Nat := 0x02

/-- Modelled from the spec: kind tag of the definition record
(`definition=0x94`). -/
def KindDef : Nat := 0x94

/-- Modelled from the spec: kind tag of the extended-definition record
(`definition-extended=0x96`). -/
def KindDef2 : Nat := 0x96

/-- Modelled from the spec: kind tag of the overlay record
(`overlay=0x98`). -/
def KindOverlay : Nat := 0x98

/-- `Dimensions.Unpack`: repeatedly read a little-endian `uint16`, append it
to the result (the 0 terminator included), and stop after appending a 0.
A `binary.Read` failure with cause `io.EOF` is converted to
`io.ErrUnexpectedEOF`; a partial read already is `io.ErrUnexpectedEOF`. -/
def unpackDims : List Nat → PResult (List Nat)
  | [] => (.error .unexpectedEof, [])
  | [_] => (.error .unexpectedEof, [])
  | lo :: hi :: bs =>
      if lo + 256 * hi = 0 then (.ok [lo + 256 * hi], bs)
      else
        match unpackDims bs with
        | (.error e, rest) => (.error e, rest)
        | (.ok dims, rest) => (.ok ((lo + 256 * hi) :: dims), rest)

/-- The `for i := 0; i < narray; i++` loop of `parseDef2`: read `n`
dimension groups in sequence. -/
def readDims : Nat → List Nat → PResult (List (List Nat))
  | 0, bs => (.ok [], bs)
  | n + 1, bs =>
      pbind (unpackDims bs) fun dims bs1 =>
        pbind (readDims n bs1) fun rest bs2 =>
          (.ok (dims :: rest), bs2)

/-- `parseName1`: `struc.Unpack` of a `Name1` (1-byte length, then that many
name bytes). -/
def parseName1 (bs : List Nat) : PResult Name1 :=
  pbind (readU8 bs) fun len bs1 =>
    pbind (readBytes len bs1) fun name bs2 =>
      (.ok ⟨len, name⟩, bs2)

/-- `parseName2`: `struc.Unpack` of a `Name2`. -/
def parseName2 (bs : List Nat) : PResult Name2 :=
  pbind (readU8 bs) fun len bs1 =>
    pbind (readBytes len bs1) fun name bs2 =>
      (.ok ⟨len, name⟩, bs2)

/-- `parseDef`: `struc.Unpack` of a `Def` (class u16, type u16, size u32,
1-byte name length, name bytes). -/
def parseDef (bs : List Nat) : PResult Def :=
  pbind (readU16 bs) fun cls bs1 =>
    pbind (readU16 bs1) fun ty bs2 =>
      pbind (readU32 bs2) fun size bs3 =>
        pbind (readU8 bs3) fun len bs4 =>
          pbind (readBytes len bs4) fun name bs5 =>
            (.ok ⟨cls, ty, size, len, name⟩, bs5)

/-- `parseOverlay`: `struc.Unpack` of an `Overlay` (length u32, id u32). -/
def parseOverlay (bs : List Nat) : PResult Overlay :=
  pbind (readU32 bs) fun len bs1 =>
    pbind (readU32 bs1) fun id bs2 =>
      (.ok ⟨len, id⟩, bs2)

/-- `parseDef2`.  The modifier-stack accessor `Type.mods()` of the encoded
type is not among the provided sources, so the parser is parametrized over
it (`mods`); `0x3` is the `ARY` modifier.  `narray` is the number of `ARY`
modifiers, forced to 1 when zero, and that many dimension groups are read;
then the length-prefixed tag and name (each skipped when its length byte is
zero, leaving the empty string). -/
def parseDef2 (mods : Nat → List Nat) (bs : List Nat) : PResult Def2 :=
  pbind (readU16 bs) fun cls bs1 =>
    pbind (readU16 bs1) fun ty bs2 =>
      pbind (readU32 bs2) fun size bs3 =>
        let narray0 := (mods ty).count 0x3
        let narray := if narray0 = 0 then 1 else narray0
        pbind (readDims narray bs3) fun dims bs4 =>
          pbind (readU8 bs4) fun tagLen bs5 =>
            pbind (readBytes tagLen bs5) fun tag bs6 =>
              pbind (readU8 bs6) fun nameLen bs7 =>
                pbind (readBytes nameLen bs7) fun name bs8 =>
                  (.ok ⟨cls, ty, size, dims, tagLen, tag, nameLen, name⟩, bs8)

/-- `parseSymbolHeader`: `struc.Unpack` of the 5-byte header. -/
def parseSymbolHeader (bs : List Nat) : PResult SymbolHeader :=
  pbind (readU32 bs) fun value bs1 =>
    pbind (readU8 bs1) fun kind bs2 =>
      (.ok ⟨value, kind⟩, bs2)

/-- `parseSymbolBody`: dispatch on the kind tag; any unknown kind is a hard
error naming the kind, raised before any body byte is read. -/
def parseSymbolBody (mods : Nat → List Nat) (kind : Nat) (bs : List Nat) :
    PResult SymbolBody :=
  if kind = KindName1 then
    pbind (parseName1 bs) fun body rest => (.ok (.name1 body), rest)
  else if kind = KindName2 then
    pbind (parseName2 bs) fun body rest => (.ok (.name2 body), rest)
  else if kind = KindDef then
    pbind (parseDef bs) fun body rest => (.ok (.defSym body), rest)
  else if kind = KindDef2 then
    pbind (parseDef2 mods bs) fun body rest => (.ok (.def2Sym body), rest)
  else if kind = KindOverlay then
    pbind (parseOverlay bs) fun body rest => (.ok (.overlay body), rest)
  else (.error (.unknownKind kind), bs)


/-- `parseSymbol`.  Mirrors the Go double return `(*Symbol, error)`: on a
header error the symbol is nil (`none`); on a body error the partially
filled symbol (header set, body nil) is returned together with the error;
otherwise the complete symbol with a nil error. -/
def parseSymbol (mods : Nat → List Nat) (bs : List Nat) :
    (Option Symbol × Option Err) × List Nat :=
  match parseSymbolHeader bs with
  | (.error e, rest) => ((none, some e), rest)
  | (.ok hdr, bs1) =>
      match parseSymbolBody mods hdr.Kind bs1 with
      | (.error e, rest) => ((some ⟨hdr, none⟩, some e), rest)
      | (.ok body, rest) => ((some ⟨hdr, some body⟩, none), rest)

end SymSpec

namespace CSpec

/-- `BaseType` of package `c` (stringer line comments give the C
spellings). -/
inductive BaseType where
  | void
  | char
  | short
  | int
  | long
  | uchar
  | ushort
  | uint
  | ulong
deriving DecidableEq, Repr

/-- The generated `BaseType.String` (from the `// void` etc. line
comments). -/
def BaseType.str : BaseType → String
  | .void => "void"
  | .char => "char"
  | .short => "short"
  | .int => "int"
  | .long => "long"
  | .uchar => "unsigned char"
  | .ushort => "unsigned short"
  | .uint => "unsigned int"
  | .ulong => "unsigned long"

/-- `EnumMember`: enum value (uint32) and name. -/
structure EnumMember where
  Value : Nat
  Name : String
deriving DecidableEq, Repr

mutual

/-- The `c.Type` interface: sum of `Typedef`, `BaseType`, `PointerType`,
`StructType`, `UnionType`, `EnumType`, `ArrayType` and `FuncType`.  The
`Len` of `ArrayType` is a Go `int`, hence `Int`. -/
inductive CType where
  | typedef (ty : CType) (name : String)
  | base (b : BaseType)
  | pointer (elem : CType)
  | structT (size : Nat) (tag : String) (fields : List CField)
  | unionT (size : Nat) (tag : String) (fields : List CField)
  | enumT (tag : String) (members : List EnumMember)
  | array (elem : CType) (len : Int)
  | func (ret : CType) (params : List CField) (variadic : Bool)

/-- `c.Field`: offset, size, type and name of a struct/union field or
function parameter. -/
inductive CField where
  | mk (Offset : Nat) (Size : Nat) (Ty : CType) (Name : String)

end

/-- Field accessor `Offset`. -/
def CField.Offset : CField → Nat
  | .mk o _ _ _ => o

/-- Field accessor `Size`. -/
def CField.Size : CField → Nat
  | .mk _ s _ _ => s

/-- Field accessor `Type` (Lean reserved word, rendered `Ty`). -/
def CField.Ty : CField → CType
  | .mk _ _ t _ => t

/-- Field accessor `Name`. -/
def CField.Name : CField → String
  | .mk _ _ _ n => n

/-- Uppercase hexadecimal digit. -/
def hexDigitU (n : Nat) : Char :=
  if n < 10 then Char.ofNat (48 + n) else Char.ofNat (55 + n)

/-- Digits of `%X`: uppercase hexadecimal, no leading zeros, `0` for 0. -/
def hexChars (n : Nat) : List Char :=
  if h : n < 16 then [hexDigitU n]
  else hexChars (n / 16) ++ [hexDigitU (n % 16)]
decreasing_by exact Nat.div_lt_self (by omega) (by omega)

/-- `fmt` verb `%X`. -/
def toHexU (n : Nat) : String := String.mk (hexChars n)

/-- `fmt` verb `%04X`: zero-padded to width 4 (wider numbers are not
truncated). -/
def hex04 (n : Nat) : String :=
  String.mk (List.replicate (4 - (hexChars n).length) '0' ++ hexChars n)

/-- `strconv.Atoi` success predicate (`strconv` is the Go standard library,
modelled at its documented semantics): an optional single `+` or `-` sign,
then one or more decimal digits, the value fitting a signed 64-bit `int`
(≤ 2^63 − 1, or ≤ 2^63 after a `-`). -/
def atoiAccepts (s : List Char) : Bool :=
  let core : Bool → List Char → Bool := fun neg digits =>
    !digits.isEmpty && digits.all Char.isDigit &&
      (let v := digits.foldl (fun acc c => 10 * acc + (c.toNat - 48)) 0
       if neg then v ≤ 2 ^ 63 else v ≤ 2 ^ 63 - 1)
  match s with
  | [] => false
  | c :: rest =>
      if c = '-' then core true rest
      else if c = '+' then core false rest
      else core false (c :: rest)

/-- `isFakeTag`: `strings.HasPrefix(tag, "_")`, `strings.HasSuffix(tag,
"fake")`, and `strconv.Atoi` succeeds on the byte slice
`tag[1 : len(tag)-4]` between them. -/
def isFakeTag (tag : String) : Bool :=
  if tag.toList.take 1 = ['_']
      && tag.toList.drop (tag.toList.length - 4) = "fake".toList then
    atoiAccepts ((tag.toList.drop 1).take (tag.toList.length - 5))
  else false

/-- The variadic tail of a parameter list: `", ..."` after parameters,
`"..."` when there are none, nothing for non-variadic functions. -/
def variadicTail (params : List CField) (variadic : Bool) : String :=
  if variadic then (if params.length > 0 then ", ..." else "...") else ""

/-- `n` spaces. -/
def spaces (n : Nat) : String := String.mk (List.replicate n ' ')

/-- The second-field heuristic of `StructType.Def`, `UnionType.Def` and
`fakeUnionString`: `len(t.Fields) > 1 && t.Fields[1].Offset > 0`. -/
def secondFieldOffsetPos : List CField → Bool
  | _ :: g :: _ => decide (0 < g.Offset)
  | _ => false

/-- The per-field comment of `StructType.Def`, `UnionType.Def` (indent
`"\t"`) and `fakeUnionString` (indent `"\t\t"`): offset and size when the
field's size is nonzero, offset alone under the second-field heuristic,
nothing otherwise. -/
def fieldComment (indent : String) (fields : List CField) (f : CField) :
    String :=
  if 0 < f.Size then
    indent ++ "// offset: " ++ hex04 f.Offset ++ " (" ++ toString f.Size
      ++ " bytes)\n"
  else if secondFieldOffsetPos fields then
    indent ++ "// offset: " ++ hex04 f.Offset ++ "\n"
  else ""

mutual

/-- The `String()` method of the `c.Type` interface: short reference form
(`struct Foo`, `int*`, `int[3]`, `int (*)(...)`, typedef name, base-type
spelling). -/
def ctypeString : CType → String
  | .typedef _ name => name
  | .base b => b.str
  | .pointer elem => ctypeString elem ++ "*"
  | .structT _ tag _ => "struct " ++ tag
  | .unionT _ tag _ => "union " ++ tag
  | .enumT tag _ => "enum " ++ tag
  | .array elem len => ctypeString elem ++ "[" ++ toString len ++ "]"
  | .func ret params variadic =>
      ctypeString ret ++ " (*)(" ++ paramsString params
        ++ variadicTail params variadic ++ ")"

/-- The parameter list as written by `FuncType.String` and the `FuncType`
case of `Field.String`: `param.String()` joined by `", "`. -/
def paramsString : List CField → String
  | [] => ""
  | [.mk _off _sz ty name] => fieldString ty name
  | .mk _off _sz ty name :: f :: rest =>
      fieldString ty name ++ ", " ++ paramsString (f :: rest)

/-- `Field.String`, the declarator synthesizer (spiral rule): pointers
prepend `*` to the name, arrays append `[len]`, functions wrap the name in
`(...)(params)`; a union leaf whose tag `isFakeTag` holds for is inlined via
`fakeUnionString`; every other leaf prints `<type> <name>`. -/
def fieldString : CType → String → String
  | .pointer elem, name => fieldString elem ("*" ++ name)
  | .array elem len, name =>
      fieldString elem (name ++ "[" ++ toString len ++ "]")
  | .func ret params variadic, name =>
      fieldString ret ("(" ++ name ++ ")(" ++ paramsString params
        ++ variadicTail params variadic ++ ")")
  | .unionT sz tag fields, name =>
      if isFakeTag tag then fakeUnionString sz fields ++ " " ++ name
      else ctypeString (.unionT sz tag fields) ++ " " ++ name
  | .typedef ty tname, name => ctypeString (.typedef ty tname) ++ " " ++ name
  | .base b, name => ctypeString (.base b) ++ " " ++ name
  | .structT sz tag fields, name =>
      ctypeString (.structT sz tag fields) ++ " " ++ name
  | .enumT tag members, name => ctypeString (.enumT tag members) ++ " " ++ name

/-- `fakeUnionString`: the anonymous inlined union body, with the whole
block at one extra indent level (`"\tunion \x7b"`, fields at `"\t\t"`). -/
def fakeUnionString (size : Nat) (fields : List CField) : String :=
  (if 0 < size then "// size = 0x" ++ toHexU size ++ "\n" else "")
    ++ "\tunion \x7b\n" ++ fakeUnionBody fields fields ++ "\t\x7d"

/-- The field loop of `fakeUnionString` (`all` is the full field list, used
by the second-field heuristic of the offset comments). -/
def fakeUnionBody (all : List CField) : List CField → String
  | [] => ""
  | .mk off sz ty name :: rest =>
      fieldComment "\t\t" all (.mk off sz ty name) ++ "\t\t"
        ++ fieldString ty name ++ ";\n" ++ fakeUnionBody all rest

end

/-- `Field.String` on a whole `Field` value (`Offset` and `Size` do not
influence the declarator). -/
def CField.str (f : CField) : String := fieldString f.Ty f.Name

/-- One line of the field loop shared by `StructType.Def` and
`UnionType.Def`: optional offset comment, a tab, the field declarator and
`";\n"`. -/
def fieldEntry (fields : List CField) (f : CField) : String :=
  fieldComment "\t" fields f ++ "\t" ++ f.str ++ ";\n"

/-- The `for _, field := range t.Fields` loop of `StructType.Def` and
`UnionType.Def` (`fields` is the full list, consulted by the second-field
heuristic). -/
def defFieldLines (fields : List CField) : List CField → String
  | [] => ""
  | f :: rest => fieldEntry fields f ++ defFieldLines fields rest

/-- `StructType.Def`: optional `// size` comment, `struct <tag> {` (tag
omitted when empty), the field lines, closing `}`. -/
def structTypeDef (size : Nat) (tag : String) (fields : List CField) :
    String :=
  (if 0 < size then "// size = 0x" ++ toHexU size ++ "\n" else "")
    ++ (if 0 < tag.length then "struct " ++ tag ++ " \x7b\n" else "struct \x7b\n")
    ++ defFieldLines fields fields
    ++ "\x7d"

/-- `UnionType.Def`: same shape as `StructType.Def` with the `union`
keyword. -/
def unionTypeDef (size : Nat) (tag : String) (fields : List CField) :
    String :=
  (if 0 < size then "// size = 0x" ++ toHexU size ++ "\n" else "")
    ++ (if 0 < tag.length then "union " ++ tag ++ " \x7b\n" else "union \x7b\n")
    ++ defFieldLines fields fields
    ++ "\x7d"

/-- Following the spec's words, for comparison with the source-translated
`isFakeTag`: a "valid non-negative integer" is one or more decimal digits
and nothing else. -/
def specNonNegInteger (s : List Char) : Bool :=
  !s.isEmpty && s.all Char.isDigit

/-- Width of the name column produced by the `tabwriter` of `EnumType.Def`
(minwidth 1, tabwidth 3, padding 1, pad `' '`, `TabIndent`): the column
width starts at minwidth and each cell contributes its rune count plus the
padding. -/
def enumColWidth (members : List EnumMember) : Nat :=
  members.foldl (fun acc m => max acc (m.Name.length + 1)) 1

/-- The member lines of `EnumType.Def` after the `tabwriter` flush.  Each
line is written as `"\t%s\t= %d,\n"`; the leading empty cell is padded with
a single tab (`TabIndent`, column width 1 rounded up to one tabwidth), the
name cell is padded with spaces to the column width, and the trailing
`= value,` cell is emitted verbatim. -/
def enumLines (members : List EnumMember) : String :=
  String.join (members.map fun m =>
    "\t" ++ m.Name ++ spaces (enumColWidth members - m.Name.length)
      ++ "= " ++ toString m.Value ++ ",\n")

/-- `EnumType.Def` applied to an already ordered member list: header
`enum <tag> {` (tag omitted when empty), the tab-formatted member lines,
closing `}`. -/
def renderEnum (tag : String) (members : List EnumMember) : String :=
  (if 0 < tag.length then "enum " ++ tag ++ " \x7b\n" else "enum \x7b\n")
    ++ enumLines members ++ "\x7d"

/-- Ordered by `less`, the comparison of `EnumType.Def`:
`t.Members[i].Value < t.Members[j].Value`. -/
def SortedByValue (l : List EnumMember) : Prop :=
  l.Pairwise fun a b => a.Value ≤ b.Value

instance (l : List EnumMember) : Decidable (SortedByValue l) := by
  unfold SortedByValue
  exact inferInstance

/-- Specification of `sort.Slice(t.Members, less)`: the result is some
permutation of the input that is ordered by `less`.  `sort.Slice` documents
that the sort is not guaranteed to be stable, so the permutation chosen
among members of equal value is unspecified: any value-sorted permutation
is an admissible outcome. -/
def SortSliceSpec (input out : List EnumMember) : Prop :=
  out.Perm input ∧ SortedByValue out

instance (input out : List EnumMember) :
    Decidable (SortSliceSpec input out) := by
  unfold SortSliceSpec
  exact instDecidableAnd

/-- One call of `EnumType.Def` on a `EnumType` whose member list is
`input`: `sort.Slice` reorders the list in place to `out` (any admissible
outcome) and the rendering of `out` is returned; `out` is also the member
list the mutated `EnumType` is left with. -/
def EnumDefRun (tag : String) (input : List EnumMember) (s : String)
    (out : List EnumMember) : Prop :=
  SortSliceSpec input out ∧ s = renderEnum tag out

end CSpec


namespace SymSpec

theorem pbind_ok {α β : Type} {p : PResult α} {f : α → List Nat → PResult β}
    {b : β} {rest : List Nat} (h : pbind p f = (.ok b, rest)) :
    ∃ a mid, p = (.ok a, mid) ∧ f a mid = (.ok b, rest) := by
  obtain ⟨res, mid⟩ := p
  cases res with
  | error e => simp [pbind] at h
  | ok a => exact ⟨a, mid, rfl, h⟩

theorem readU8_ok {bs : List Nat} {v : Nat} {rest : List Nat}
    (h : readU8 bs = (.ok v, rest)) : bs.length = 1 + rest.length := by
  cases bs with
  | nil => simp [readU8] at h
  | cons b bs => simp only [readU8, Prod.mk.injEq, Except.ok.injEq] at h
                 simp [h.2]
                 omega

theorem readU16_ok {bs : List Nat} {v : Nat} {rest : List Nat}
    (h : readU16 bs = (.ok v, rest)) : bs.length = 2 + rest.length := by
  match bs with
  | [] => simp [readU16] at h
  | [_] => simp [readU16] at h
  | lo :: hi :: bs =>
      simp only [readU16, Prod.mk.injEq, Except.ok.injEq] at h
      simp [h.2]
      omega

theorem readU32_ok {bs : List Nat} {v : Nat} {rest : List Nat}
    (h : readU32 bs = (.ok v, rest)) : bs.length = 4 + rest.length := by
  match bs with
  | [] => simp [readU32] at h
  | [_] => simp [readU32] at h
  | [_, _] => simp [readU32] at h
  | [_, _, _] => simp [readU32] at h
  | b0 :: b1 :: b2 :: b3 :: bs =>
      simp only [readU32, Prod.mk.injEq, Except.ok.injEq] at h
      simp [h.2]
      omega

theorem readBytes_ok {n : Nat} {bs out rest : List Nat}
    (h : readBytes n bs = (.ok out, rest)) :
    bs.length = n + rest.length ∧ out.length = n := by
  unfold readBytes at h
  split at h
  · next h0 => simp only [Prod.mk.injEq, Except.ok.injEq] at h
               subst h0
               simp [← h.1, ← h.2]
  · split at h
    · split at h <;> exact absurd h (by simp)
    · next hlen =>
        simp only [Prod.mk.injEq, Except.ok.injEq] at h
        obtain ⟨h1, h2⟩ := h
        subst h1 h2
        constructor
        · simp
          omega
        · simp
          omega

theorem unpackDims_ok : ∀ {bs : List Nat} {ds rest : List Nat},
    unpackDims bs = (.ok ds, rest) →
    ∃ ls, ds = ls ++ [0] ∧ 0 ∉ ls ∧ bs.length = 2 * ds.length + rest.length
  | [], ds, rest, h => by simp [unpackDims] at h
  | [_], ds, rest, h => by simp [unpackDims] at h
  | lo :: hi :: bs, ds, rest, h => by
      unfold unpackDims at h
      by_cases h0 : lo + 256 * hi = 0
      · rw [if_pos h0] at h
        simp only [Prod.mk.injEq, Except.ok.injEq] at h
        refine ⟨[], ?_, by simp, ?_⟩
        · simp [← h.1, h0]
        · simp [← h.1, ← h.2]
          omega
      · rw [if_neg h0] at h
        cases hrec : unpackDims bs with
        | mk res rest2 =>
            rw [hrec] at h
            cases res with
            | error e => simp at h
            | ok ds2 =>
                simp only [Prod.mk.injEq, Except.ok.injEq] at h
                obtain ⟨hds, hrest⟩ := h
                obtain ⟨ls, hls, hnz, hlen⟩ := unpackDims_ok hrec
                refine ⟨(lo + 256 * hi) :: ls, ?_, ?_, ?_⟩
                · simp [← hds, hls]
                · simp [hnz]
                  omega
                · subst hrest
                  simp [← hds, hls] at hlen ⊢
                  omega

theorem unpackDims_error : ∀ {bs : List Nat} {e : Err} {rest : List Nat},
    unpackDims bs = (.error e, rest) → e = .unexpectedEof
  | [], e, rest, h => by simp only [unpackDims, Prod.mk.injEq,
      Except.error.injEq] at h; exact h.1.symm
  | [_], e, rest, h => by simp only [unpackDims, Prod.mk.injEq,
      Except.error.injEq] at h; exact h.1.symm
  | lo :: hi :: bs, e, rest, h => by
      unfold unpackDims at h
      by_cases h0 : lo + 256 * hi = 0
      · rw [if_pos h0] at h
        simp at h
      · rw [if_neg h0] at h
        cases hrec : unpackDims bs with
        | mk res rest2 =>
            rw [hrec] at h
            cases res with
            | error e2 =>
                simp only [Prod.mk.injEq, Except.error.injEq] at h
                rw [← h.1]
                exact unpackDims_error hrec
            | ok ds2 => simp at h

theorem readDims_ok : ∀ {n : Nat} {bs : List Nat} {ds : List (List Nat)}
    {rest : List Nat}, readDims n bs = (.ok ds, rest) →
    ds.length = n ∧
      bs.length = (ds.map (fun d => 2 * d.length)).sum + rest.length
  | 0, bs, ds, rest, h => by
      simp only [readDims, Prod.mk.injEq, Except.ok.injEq] at h
      simp [← h.1, ← h.2]
  | n + 1, bs, ds, rest, h => by
      unfold readDims at h
      obtain ⟨dims, bs1, h1, h2⟩ := pbind_ok h
      obtain ⟨ds2, bs2, h3, h4⟩ := pbind_ok h2
      simp only [Prod.mk.injEq, Except.ok.injEq] at h4
      obtain ⟨rfl, rfl⟩ := h4
      obtain ⟨_, _, _, hlen1⟩ := unpackDims_ok h1
      obtain ⟨hlen2, hlen3⟩ := readDims_ok h3
      refine ⟨by simp [hlen2], ?_⟩
      simp
      omega

theorem dims_foldl_eq_sum (ds : List (List Nat)) : ∀ init : Nat,
    ds.foldl (fun acc dims => acc + 2 * dims.length) init
      = init + (ds.map (fun d => 2 * d.length)).sum := by
  induction ds with
  | nil => simp
  | cons d ds ih => intro init
                    simp [ih]
                    omega

theorem parseName1_ok {bs : List Nat} {body : Name1} {rest : List Nat}
    (h : parseName1 bs = (.ok body, rest)) :
    bs.length = body.BodySize + rest.length := by
  obtain ⟨len, bs1, h1, h2⟩ := pbind_ok h
  obtain ⟨name, bs2, h3, h4⟩ := pbind_ok h2
  simp only [Prod.mk.injEq, Except.ok.injEq] at h4
  obtain ⟨rfl, rfl⟩ := h4
  have e1 := readU8_ok h1
  have e2 := readBytes_ok h3
  simp [Name1.BodySize]
  omega

theorem parseName2_ok {bs : List Nat} {body : Name2} {rest : List Nat}
    (h : parseName2 bs = (.ok body, rest)) :
    bs.length = body.BodySize + rest.length := by
  obtain ⟨len, bs1, h1, h2⟩ := pbind_ok h
  obtain ⟨name, bs2, h3, h4⟩ := pbind_ok h2
  simp only [Prod.mk.injEq, Except.ok.injEq] at h4
  obtain ⟨rfl, rfl⟩ := h4
  have e1 := readU8_ok h1
  have e2 := readBytes_ok h3
  simp [Name2.BodySize]
  omega

theorem parseDef_ok {bs : List Nat} {body : Def} {rest : List Nat}
    (h : parseDef bs = (.ok body, rest)) :
    bs.length = body.BodySize + rest.length := by
  obtain ⟨cls, bs1, h1, h2⟩ := pbind_ok h
  obtain ⟨ty, bs2, h3, h4⟩ := pbind_ok h2
  obtain ⟨size, bs3, h5, h6⟩ := pbind_ok h4
  obtain ⟨len, bs4, h7, h8⟩ := pbind_ok h6
  obtain ⟨name, bs5, h9, h10⟩ := pbind_ok h8
  simp only [Prod.mk.injEq, Except.ok.injEq] at h10
  obtain ⟨rfl, rfl⟩ := h10
  have e1 := readU16_ok h1
  have e2 := readU16_ok h3
  have e3 := readU32_ok h5
  have e4 := readU8_ok h7
  have e5 := readBytes_ok h9
  simp [Def.BodySize]
  omega

theorem parseOverlay_ok {bs : List Nat} {body : Overlay} {rest : List Nat}
    (h : parseOverlay bs = (.ok body, rest)) :
    bs.length = body.BodySize + rest.length := by
  obtain ⟨len, bs1, h1, h2⟩ := pbind_ok h
  obtain ⟨id, bs2, h3, h4⟩ := pbind_ok h2
  simp only [Prod.mk.injEq, Except.ok.injEq] at h4
  obtain ⟨rfl, rfl⟩ := h4
  have e1 := readU32_ok h1
  have e2 := readU32_ok h3
  simp [Overlay.BodySize]
  omega

theorem parseDef2_ok {mods : Nat → List Nat} {bs : List Nat} {body : Def2}
    {rest : List Nat} (h : parseDef2 mods bs = (.ok body, rest)) :
    bs.length = body.BodySize + rest.length ∧
      body.Dims.length = max 1 ((mods body.Ty).count 0x3) := by
  obtain ⟨cls, bs1, h1, h2⟩ := pbind_ok h
  obtain ⟨ty, bs2, h3, h4⟩ := pbind_ok h2
  obtain ⟨size, bs3, h5, h6⟩ := pbind_ok h4
  obtain ⟨dims, bs4, h7, h8⟩ := pbind_ok h6
  obtain ⟨tagLen, bs5, h9, h10⟩ := pbind_ok h8
  obtain ⟨tag, bs6, h11, h12⟩ := pbind_ok h10
  obtain ⟨nameLen, bs7, h13, h14⟩ := pbind_ok h12
  obtain ⟨name, bs8, h15, h16⟩ := pbind_ok h14
  simp only [Prod.mk.injEq, Except.ok.injEq] at h16
  obtain ⟨rfl, rfl⟩ := h16
  have e1 := readU16_ok h1
  have e2 := readU16_ok h3
  have e3 := readU32_ok h5
  have e4 := readDims_ok h7
  have e5 := readU8_ok h9
  have e6 := readBytes_ok h11
  have e7 := readU8_ok h13
  have e8 := readBytes_ok h15
  constructor
  · simp [Def2.BodySize, dims_foldl_eq_sum]
    omega
  · simp only
    rcases e4 with ⟨e4a, _⟩
    rcases Nat.eq_zero_or_pos ((mods ty).count 0x3) with hz | hp
    · simp [hz] at e4a ⊢
      omega
    · have : ¬ ((mods ty).count 0x3 = 0) := by omega
      simp [this] at e4a ⊢
      omega

theorem parseSymbolHeader_ok {bs : List Nat} {hdr : SymbolHeader}
    {rest : List Nat} (h : parseSymbolHeader bs = (.ok hdr, rest)) :
    bs.length = 5 + rest.length := by
  obtain ⟨value, bs1, h1, h2⟩ := pbind_ok h
  obtain ⟨kind, bs2, h3, h4⟩ := pbind_ok h2
  simp only [Prod.mk.injEq, Except.ok.injEq] at h4
  obtain ⟨rfl, rfl⟩ := h4
  have e1 := readU32_ok h1
  have e2 := readU8_ok h3
  omega

theorem parseSymbolBody_ok {mods : Nat → List Nat} {kind : Nat}
    {bs : List Nat} {body : SymbolBody} {rest : List Nat}
    (h : parseSymbolBody mods kind bs = (.ok body, rest)) :
    bs.length = body.BodySize + rest.length := by
  unfold parseSymbolBody at h
  split at h
  · obtain ⟨b, mid, h1, h2⟩ := pbind_ok h
    simp only [Prod.mk.injEq, Except.ok.injEq] at h2
    obtain ⟨rfl, rfl⟩ := h2
    simpa [SymbolBody.BodySize] using parseName1_ok h1
  · split at h
    · obtain ⟨b, mid, h1, h2⟩ := pbind_ok h
      simp only [Prod.mk.injEq, Except.ok.injEq] at h2
      obtain ⟨rfl, rfl⟩ := h2
      simpa [SymbolBody.BodySize] using parseName2_ok h1
    · split at h
      · obtain ⟨b, mid, h1, h2⟩ := pbind_ok h
        simp only [Prod.mk.injEq, Except.ok.injEq] at h2
        obtain ⟨rfl, rfl⟩ := h2
        simpa [SymbolBody.BodySize] using parseDef_ok h1
      · split at h
        · obtain ⟨b, mid, h1, h2⟩ := pbind_ok h
          simp only [Prod.mk.injEq, Except.ok.injEq] at h2
          obtain ⟨rfl, rfl⟩ := h2
          simpa [SymbolBody.BodySize] using (parseDef2_ok h1).1
        · split at h
          · obtain ⟨b, mid, h1, h2⟩ := pbind_ok h
            simp only [Prod.mk.injEq, Except.ok.injEq] at h2
            obtain ⟨rfl, rfl⟩ := h2
            simpa [SymbolBody.BodySize] using parseOverlay_ok h1
          · simp at h

/-- Claim C1: for every successfully decoded symbol record (any of the five
body variants), the number of bytes consumed from the stream while parsing
the record equals the record's self-reported byte size `Symbol.Size`
(5 header bytes plus `BodySize`). -/
theorem parseSymbol_consumed_eq_size (mods : Nat → List Nat) (bs : List Nat)
    (sym : Symbol) (rest : List Nat)
    (h : parseSymbol mods bs = ((some sym, none), rest)) :
    bs.length = sym.Size + rest.length := by
  unfold parseSymbol at h
  split at h
  · simp at h
  · rename_i hdr bs1 hh
    split at h
    · simp at h
    · rename_i body rest2 hb
      simp only [Prod.mk.injEq, Option.some.injEq] at h
      obtain ⟨⟨rfl, -⟩, rfl⟩ := h
      have e1 := parseSymbolHeader_ok hh
      have e2 := parseSymbolBody_ok hb
      simp only [Symbol.Size]
      omega

/-- Witness for C1: a concrete 13-byte overlay record is decoded and the
whole stream (13 bytes) is consumed, matching `Size = 5 + 8`. -/
theorem parseSymbol_consumed_eq_size_witness :
    ([0, 0, 0, 0, 0x98, 1, 0, 0, 0, 2, 0, 0, 0] : List Nat).length
      = Symbol.Size ⟨⟨0, 0x98⟩, some (.overlay ⟨1, 2⟩)⟩
        + ([] : List Nat).length :=
  parseSymbol_consumed_eq_size (fun _ => []) _ _ _ rfl

/-- Claim C2: for every successfully decoded `Def2` record, the number of
`Dimensions` groups read and stored equals `max 1 n` where `n` is the count
of `ARY` (0x3) modifiers in the decoded type's modifier stack — proved for
every modifier-stack function `mods`, since `Type.mods` itself is not among
the provided sources. -/
theorem parseDef2_dims_count (mods : Nat → List Nat) (bs : List Nat)
    (body : Def2) (rest : List Nat)
    (h : parseDef2 mods bs = (.ok body, rest)) :
    body.Dims.length = max 1 ((mods body.Ty).count 0x3) :=
  (parseDef2_ok h).2

/-- Witness for C2: with a modifier stack holding two `ARY` (0x3) modifiers,
a concrete `Def2` record with two dimension groups is decoded and
`2 = max 1 2`. -/
theorem parseDef2_dims_count_witness :
    (Def2.mk 1 5 4 [[1, 0], [2, 0]] 0 [] 0 []).Dims.length
      = max 1 (((fun _ => [0x3, 0x3]) 5 : List Nat).count 0x3) :=
  parseDef2_dims_count (fun _ => [0x3, 0x3])
    [1, 0, 5, 0, 4, 0, 0, 0, 1, 0, 0, 0, 2, 0, 0, 0, 0, 0] _ [] rfl

/-- Claim C3 counterexample: `Dimensions.Unpack` on the bytes
`[1,0, 0,0]` returns the sequence `[1, 0]` — the Go code appends the 0
terminator to the slice before breaking, so the terminator IS the last
element of the returned length sequence (and is counted by `BodySize`),
contradicting the claim that it is never included. -/
theorem unpackDims_counterexample :
    unpackDims [1, 0, 0, 0] = (.ok [1, 0], []) ∧
      ([1, 0] : List Nat).getLast? = some 0 :=
  ⟨rfl, rfl⟩

/-- Claim C3 (amended): decoding one `Dimensions` group stops at the first
0 value, and the 0 terminator is included in the returned sequence exactly
once, as its final element (no earlier element is 0); if the stream ends
before a 0 terminator is read, decoding fails with `io.ErrUnexpectedEOF`
(truncation), never with the clean end-of-stream `io.EOF`. -/
theorem unpackDims_terminator_truncation (bs : List Nat) :
    (∀ ds rest, unpackDims bs = (.ok ds, rest) →
        ∃ ls, ds = ls ++ [0] ∧ 0 ∉ ls) ∧
    (∀ e rest, unpackDims bs = (.error e, rest) → e = .unexpectedEof) :=
  ⟨fun _ _ h => (unpackDims_ok h).imp fun _ hl => ⟨hl.1, hl.2.1⟩,
   fun _ _ h => unpackDims_error h⟩

/-- Witness for the amended C3: the group decoded from `[5,0, 0,0]` is
`[5] ++ [0]` with no zero before the terminator, and decoding the
terminator-less stream `[1,0]` fails with `unexpectedEof`. -/
theorem unpackDims_terminator_truncation_witness :
    (∃ ls, ([5, 0] : List Nat) = ls ++ [0] ∧ 0 ∉ ls) ∧
      (Err.unexpectedEof = Err.unexpectedEof) :=
  ⟨(unpackDims_terminator_truncation [5, 0, 0, 0]).1 [5, 0] [] rfl,
   (unpackDims_terminator_truncation [1, 0]).2 Err.unexpectedEof [] rfl⟩

/-- Claim C8: for every header kind that is not one of the five implemented
kinds (0x01, 0x02, 0x94, 0x96, 0x98), body parsing returns the
`unknownKind` error identifying that kind, with zero bytes of the body
consumed (the stream is returned untouched). -/
theorem parseSymbolBody_unknown_kind (mods : Nat → List Nat) (kind : Nat)
    (bs : List Nat)
    (h : kind ≠ KindName1 ∧ kind ≠ KindName2 ∧ kind ≠ KindDef ∧
      kind ≠ KindDef2 ∧ kind ≠ KindOverlay) :
    parseSymbolBody mods kind bs = (.error (.unknownKind kind), bs) := by
  obtain ⟨h1, h2, h3, h4, h5⟩ := h
  simp [parseSymbolBody, h1, h2, h3, h4, h5]

/-- Witness for C8: kind 0xFF on a nonempty stream errors with
`unknownKind 0xFF` and leaves the stream intact. -/
theorem parseSymbolBody_unknown_kind_witness :
    parseSymbolBody (fun _ => []) 0xFF [9, 9]
      = (.error (.unknownKind 0xFF), [9, 9]) :=
  parseSymbolBody_unknown_kind (fun _ => []) 0xFF [9, 9] (by decide)

/-- Claim C10: if the symbol header parses successfully but the body parse
fails, `parseSymbol` returns the partially decoded symbol (header set, body
nil) together with the error; if the header itself fails to parse, it
returns a nil symbol with the error. -/
theorem parseSymbol_error_paths (mods : Nat → List Nat) (bs : List Nat) :
    (∀ e rest, parseSymbolHeader bs = (.error e, rest) →
        parseSymbol mods bs = ((none, some e), rest)) ∧
    (∀ hdr bs1 e rest, parseSymbolHeader bs = (.ok hdr, bs1) →
        parseSymbolBody mods hdr.Kind bs1 = (.error e, rest) →
        parseSymbol mods bs = ((some ⟨hdr, none⟩, some e), rest)) := by
  constructor
  · intro e rest h
    simp [parseSymbol, h]
  · intro hdr bs1 e rest h1 h2
    simp [parseSymbol, h1, h2]

/-- Witness for C10: the empty stream fails in the header and yields a nil
symbol with `io.EOF`; the stream `[0,0,0,0,255]` parses its header, fails
in the body with `unknownKind 255`, and yields the partial symbol. -/
theorem parseSymbol_error_paths_witness :
    parseSymbol (fun _ => []) [] = ((none, some .eof), []) ∧
      parseSymbol (fun _ => []) [0, 0, 0, 0, 255]
        = ((some ⟨⟨0, 255⟩, none⟩, some (.unknownKind 255)), []) :=
  ⟨(parseSymbol_error_paths (fun _ => []) []).1 .eof [] rfl,
   (parseSymbol_error_paths (fun _ => []) [0, 0, 0, 0, 255]).2
     ⟨0, 255⟩ [] (.unknownKind 255) [] rfl rfl⟩

end SymSpec
namespace CSpec

theorem string_eq_empty_of_length {s : String} (h : s.length = 0) :
    s = "" := by
  cases s with
  | mk data =>
      cases data with
      | nil => rfl
      | cons c cs => simp [String.length] at h

theorem append_ne_empty_right (x y : String) (hy : y ≠ "") :
    x ++ y ≠ "" := by
  intro h
  have hl := congrArg String.length h
  rw [String.length_append] at hl
  have h0 : ("" : String).length = 0 := rfl
  rw [h0] at hl
  exact hy (string_eq_empty_of_length (by omega))

/-- Claim C4 counterexample: `_0fake` matches the synthesized anonymous-tag
pattern, yet a struct leaf carrying it is rendered by the default branch of
`Field.String` as a plain reference to the tag name (`struct _0fake x`),
not as an inlined anonymous body — only union leaves are inlined. -/
theorem fieldString_struct_fake_counterexample :
    isFakeTag "_0fake" = true ∧
      fieldString (.structT 0 "_0fake" []) "x" = "struct _0fake x" := by
  refine ⟨rfl, ?_⟩
  simp [fieldString, ctypeString]

/-- Claim C4 (amended): in declarator synthesis only union leaves get
anonymous-tag inlining: a union leaf whose tag satisfies `isFakeTag`
renders as the inlined anonymous brace-delimited body (`fakeUnionString`,
whose body lines carry one extra indent level) followed by the field name;
a union with any other tag, and every struct leaf regardless of its tag,
is referenced by its tag name. -/
theorem fieldString_union_inlining (sz : Nat) (tag : String)
    (fields : List CField) (name : String) :
    (isFakeTag tag = true →
        fieldString (.unionT sz tag fields) name
          = fakeUnionString sz fields ++ " " ++ name) ∧
    (isFakeTag tag = false →
        fieldString (.unionT sz tag fields) name
          = "union " ++ tag ++ " " ++ name) ∧
    fieldString (.structT sz tag fields) name
      = "struct " ++ tag ++ " " ++ name := by
  refine ⟨?_, ?_, ?_⟩
  · intro h
    simp [fieldString, h]
  · intro h
    simp [fieldString, ctypeString, h]
  · simp [fieldString, ctypeString]

/-- Witness for the amended C4: a fake-tagged union leaf is inlined, an
ordinarily tagged one is referenced by name. -/
theorem fieldString_union_inlining_witness :
    fieldString (.unionT 0 "_1fake" []) "u"
        = fakeUnionString 0 [] ++ " " ++ "u" ∧
      fieldString (.unionT 0 "zzz" []) "u"
        = "union " ++ "zzz" ++ " " ++ "u" :=
  ⟨(fieldString_union_inlining 0 "_1fake" [] "u").1 rfl,
   (fieldString_union_inlining 0 "zzz" [] "u").2.1 rfl⟩

/-- Claim C6: the declarator spiral on the three concrete cases — a
pointer-to-int field named `p` renders as `int *p`, an array of 4 shorts
named `arr` renders as `short arr[4]`, and a pointer to a zero-parameter
non-variadic function returning int named `fn` renders as `int (*fn)()`. -/
theorem fieldString_spiral_examples :
    fieldString (.pointer (.base .int)) "p" = "int *p" ∧
      fieldString (.array (.base .short) 4) "arr" = "short arr[4]" ∧
      fieldString (.pointer (.func (.base .int) [] false)) "fn"
        = "int (*fn)()" := by
  refine ⟨?_, ?_, ?_⟩ <;>
    (simp [fieldString, ctypeString, paramsString, variadicTail,
      BaseType.str] <;> rfl)

theorem isFakeTag_true_iff (tag : String) :
    isFakeTag tag = true ↔
      tag.toList.take 1 = ['_'] ∧
        tag.toList.drop (tag.toList.length - 4) = "fake".toList ∧
        atoiAccepts ((tag.toList.drop 1).take (tag.toList.length - 5))
          = true := by
  unfold isFakeTag
  split
  · rename_i hcond
    rw [Bool.and_eq_true, decide_eq_true_eq, decide_eq_true_eq] at hcond
    obtain ⟨hp, hq⟩ := hcond
    constructor
    · intro h
      exact ⟨hp, hq, h⟩
    · rintro ⟨-, -, h⟩
      exact h
  · rename_i hcond
    rw [Bool.and_eq_true, decide_eq_true_eq, decide_eq_true_eq] at hcond
    constructor
    · intro h
      exact absurd h (by simp)
    · rintro ⟨hp, hq, -⟩
      exact absurd ⟨hp, hq⟩ hcond

/-- Claim C5 counterexample: `strconv.Atoi` also accepts signed input, so
`isFakeTag "_-3fake"` is true although the substring `-3` between the
affixes is not a valid non-negative integer. -/
theorem isFakeTag_counterexample :
    isFakeTag "_-3fake" = true ∧
      ((("_-3fake".toList).drop 1).take ("_-3fake".toList.length - 5))
          = ['-', '3'] ∧
      specNonNegInteger ['-', '3'] = false :=
  ⟨rfl, rfl, rfl⟩

/-- Claim C5 (amended): `isFakeTag tag` returns true iff `tag` decomposes
as `"_" ++ mid ++ "fake"` and `strconv.Atoi` accepts `mid` — an optional
single sign followed by one or more decimal digits, with the value in the
signed 64-bit range; Atoi accepts signed input and range-checks, so "valid
non-negative integer" is not exact.  The five concrete examples of the
claim all hold as stated. -/
theorem isFakeTag_characterization :
    (∀ tag : String, isFakeTag tag = true ↔ ∃ mid : List Char,
        tag.toList = '_' :: (mid ++ "fake".toList) ∧
          atoiAccepts mid = true) ∧
      isFakeTag "_0fake" = true ∧ isFakeTag "_12fake" = true ∧
        isFakeTag "foofake" = false ∧ isFakeTag "_xfake" = false ∧
        isFakeTag "" = false := by
  refine ⟨?_, rfl, rfl, rfl, rfl, rfl⟩
  intro tag
  rw [isFakeTag_true_iff]
  constructor
  · rintro ⟨h1, h2, h3⟩
    obtain ⟨cs, hcs⟩ : ∃ cs, tag.toList = cs := ⟨_, rfl⟩
    rw [hcs] at h1 h2 h3
    cases cs with
    | nil => simp at h1
    | cons c t =>
        have hc : c = '_' := by simpa using h1
        subst hc
        rcases Nat.lt_or_ge t.length 4 with hlt | hge
        · have hidx : ('_' :: t).length - 4 = 0 := by
            simp
            omega
          rw [hidx, List.drop_zero,
            show ("fake".toList) = ['f', 'a', 'k', 'e'] from rfl] at h2
          injection h2 with ha _
          exact absurd ha (by decide)
        · have hidx : ('_' :: t).length - 4 = (t.length - 4) + 1 := by
            simp
            omega
          rw [hidx, List.drop_succ_cons] at h2
          have hidx2 : ('_' :: t).length - 5 = t.length - 4 := by
            simp
          rw [hidx2, show (('_' :: t).drop 1) = t from rfl] at h3
          refine ⟨t.take (t.length - 4), ?_, h3⟩
          rw [hcs]
          congr 1
          conv_lhs => rw [← List.take_append_drop (t.length - 4) t]
          rw [h2]
  · rintro ⟨mid, hdec, hacc⟩
    rw [hdec]
    refine ⟨by simp, ?_, ?_⟩
    · have h5 : ('_' :: (mid ++ "fake".toList)).length - 4
          = mid.length + 1 := by
        simp
      rw [h5, List.drop_succ_cons]
      exact List.drop_left mid ("fake".toList)
    · have h6 : ('_' :: (mid ++ "fake".toList)).length - 5 = mid.length := by
        simp
      rw [h6,
        show (('_' :: (mid ++ "fake".toList)).drop 1)
          = mid ++ "fake".toList from rfl,
        List.take_left]
      exact hacc

/-- Witness for the amended C5: the characterization applied at `_0fake`
with `mid = ['0']`. -/
theorem isFakeTag_characterization_witness : isFakeTag "_0fake" = true :=
  (isFakeTag_characterization.1 "_0fake").mpr
    ⟨['0'], by decide, by decide⟩

theorem sortedByValue_lt_of_nodup {l : List EnumMember}
    (hs : SortedByValue l) (hn : (l.map EnumMember.Value).Nodup) :
    l.Pairwise fun a b => a.Value < b.Value := by
  have hne : l.Pairwise fun a b => a.Value ≠ b.Value :=
    List.pairwise_map.mp hn
  exact (hs.and hne).imp fun h => lt_of_le_of_ne h.1 h.2

theorem sorted_perm_nodup_unique {l₁ l₂ : List EnumMember}
    (hp : l₁.Perm l₂) (h1 : SortedByValue l₁) (h2 : SortedByValue l₂)
    (hn : (l₁.map EnumMember.Value).Nodup) : l₁ = l₂ := by
  have hn2 : (l₂.map EnumMember.Value).Nodup := (hp.map _).nodup hn
  have s1 := sortedByValue_lt_of_nodup h1 hn
  have s2 := sortedByValue_lt_of_nodup h2 hn2
  haveI : IsAntisymm EnumMember (fun a b => a.Value < b.Value) :=
    ⟨fun a b hab hba => absurd hba (by omega)⟩
  exact List.eq_of_perm_of_sorted hp s1 s2

/-- Claim C7 counterexample: with two members of equal value, `sort.Slice`
(documented as unstable) may leave them in either order, so two successive
`Def` calls on the same `EnumType` — the second starting from the member
list the first left behind — can produce different output, and the tie
order of the original read sequence is not preserved. -/
theorem enumDef_not_stable_counterexample :
    ∃ s1 out1 s2 out2,
      EnumDefRun "E" [⟨1, "a"⟩, ⟨1, "b"⟩] s1 out1 ∧
        EnumDefRun "E" out1 s2 out2 ∧ s1 ≠ s2 := by
  refine ⟨renderEnum "E" [⟨1, "a"⟩, ⟨1, "b"⟩], [⟨1, "a"⟩, ⟨1, "b"⟩],
    renderEnum "E" [⟨1, "b"⟩, ⟨1, "a"⟩], [⟨1, "b"⟩, ⟨1, "a"⟩],
    ⟨⟨by decide, by decide⟩, rfl⟩, ⟨⟨by decide, by decide⟩, rfl⟩, ?_⟩
  decide

/-- Claim C7 (amended): `EnumType.Def` renders the members in ascending
value order; when the member values are pairwise distinct the value-sorted
permutation is unique, so calling `Def` twice on the same `EnumType` —
the in-place `sort.Slice` leaving the sorted list behind for the second
call — yields identical output both times, and the second sort leaves the
list unchanged.  With duplicate values neither output idempotency nor
preservation of the original read order among ties is guaranteed, because
`sort.Slice` is documented as unstable. -/
theorem enumDef_deterministic_of_distinct (tag : String)
    (ms out1 out2 : List EnumMember) (s1 s2 : String)
    (hn : (ms.map EnumMember.Value).Nodup)
    (r1 : EnumDefRun tag ms s1 out1) (r2 : EnumDefRun tag out1 s2 out2) :
    s1 = s2 ∧ out2 = out1 := by
  obtain ⟨⟨p1, so1⟩, hs1⟩ := r1
  obtain ⟨⟨p2, so2⟩, hs2⟩ := r2
  have hn1 : (out1.map EnumMember.Value).Nodup := ((p1.map _).symm.nodup
    ((p1.map _).nodup ((p1.map _).symm.nodup hn)))
  have heq : out2 = out1 := sorted_perm_nodup_unique p2 so2 so1
    ((p2.map _).symm.nodup hn1)
  refine ⟨?_, heq⟩
  rw [hs1, hs2, heq]

/-- Witness for the amended C7: two successive `Def` runs on members with
distinct values (2 then 1) both produce the rendering of the unique sorted
order. -/
theorem enumDef_deterministic_witness :
    renderEnum "E" [⟨1, "a"⟩, ⟨2, "b"⟩]
        = renderEnum "E" [⟨1, "a"⟩, ⟨2, "b"⟩] ∧
      ([⟨1, "a"⟩, ⟨2, "b"⟩] : List EnumMember) = [⟨1, "a"⟩, ⟨2, "b"⟩] :=
  enumDef_deterministic_of_distinct "E" [⟨2, "b"⟩, ⟨1, "a"⟩]
    [⟨1, "a"⟩, ⟨2, "b"⟩] [⟨1, "a"⟩, ⟨2, "b"⟩] _ _ (by decide)
    ⟨⟨by decide, by decide⟩, rfl⟩ ⟨⟨by decide, by decide⟩, rfl⟩

/-- Claim C9: in struct and union definition rendering the first field is
preceded by an offset comment exactly when that field declares a nonzero
size, or when there are at least two fields and the second field's offset
is nonzero; a field with nonzero size additionally gets the size spelled
out in the comment.  Stated through `fieldComment`, the comment both `Def`
renderings place before the first field line. -/
theorem def_first_field_offset_comment (sz : Nat) (tag : String)
    (f : CField) (rest : List CField) :
    (∃ s, structTypeDef sz tag (f :: rest)
        = (if 0 < sz then "// size = 0x" ++ toHexU sz ++ "\n" else "")
          ++ (if 0 < tag.length then "struct " ++ tag ++ " \x7b\n"
              else "struct \x7b\n")
          ++ (fieldComment "\t" (f :: rest) f ++ "\t" ++ f.str ++ ";\n"
              ++ s)) ∧
    (∃ s, unionTypeDef sz tag (f :: rest)
        = (if 0 < sz then "// size = 0x" ++ toHexU sz ++ "\n" else "")
          ++ (if 0 < tag.length then "union " ++ tag ++ " \x7b\n"
              else "union \x7b\n")
          ++ (fieldComment "\t" (f :: rest) f ++ "\t" ++ f.str ++ ";\n"
              ++ s)) ∧
    (fieldComment "\t" (f :: rest) f ≠ ""
      ↔ 0 < f.Size ∨ ∃ g l, rest = g :: l ∧ 0 < g.Offset) ∧
    (0 < f.Size → fieldComment "\t" (f :: rest) f
        = "\t" ++ "// offset: " ++ hex04 f.Offset ++ " ("
          ++ toString f.Size ++ " bytes)\n") := by
  refine ⟨?_, ?_, ?_, ?_⟩
  · refine ⟨defFieldLines (f :: rest) rest ++ "\x7d", ?_⟩
    simp [structTypeDef, defFieldLines, fieldEntry, String.append_assoc]
  · refine ⟨defFieldLines (f :: rest) rest ++ "\x7d", ?_⟩
    simp [unionTypeDef, defFieldLines, fieldEntry, String.append_assoc]
  · by_cases hs : 0 < f.Size
    · simp only [fieldComment, if_pos hs]
      constructor
      · intro _
        exact Or.inl hs
      · intro _
        apply append_ne_empty_right
        intro h
        have := congrArg String.length h
        exact absurd this (by decide)
    · simp only [fieldComment, if_neg hs]
      cases rest with
      | nil =>
          simp only [secondFieldOffsetPos]
          constructor
          · intro h
            exact absurd rfl h
          · rintro (h | ⟨g, l, hgl, -⟩)
            · exact absurd h hs
            · exact absurd hgl (by simp)
      | cons g l =>
          by_cases hg : 0 < g.Offset
          · rw [show secondFieldOffsetPos (f :: g :: l) = true by
              simp [secondFieldOffsetPos, hg], if_pos rfl]
            constructor
            · intro _
              exact Or.inr ⟨g, l, rfl, hg⟩
            · intro _
              apply append_ne_empty_right
              intro h
              have := congrArg String.length h
              exact absurd this (by decide)
          · rw [show secondFieldOffsetPos (f :: g :: l) = false by
              simp [secondFieldOffsetPos]
              omega, if_neg (by simp)]
            constructor
            · intro h
              exact absurd rfl h
            · rintro (h | ⟨g2, l2, hgl, hoff⟩)
              · exact absurd h hs
              · obtain ⟨rfl, -⟩ : g2 = g ∧ l2 = l := by
                  injection hgl with h1 h2
                  exact ⟨h1.symm ▸ rfl, h2.symm ▸ rfl⟩
                exact absurd hoff hg
  · intro hs
    simp only [fieldComment, if_pos hs]

/-- Witness for C9: a first field of size 4 at offset 0 gets the full
offset-and-size comment. -/
theorem def_first_field_offset_comment_witness :
    fieldComment "\t" [CField.mk 0 4 (.base .int) "x"]
        (CField.mk 0 4 (.base .int) "x")
      = "\t" ++ "// offset: " ++ hex04 0 ++ " (" ++ toString (4 : Nat)
        ++ " bytes)\n" :=
  (def_first_field_offset_comment 0 "T" (CField.mk 0 4 (.base .int) "x")
    []).2.2.2 (by decide)

end CSpec
